import Mathlib

/-!
# Batch operations of the DynamoDB movie sample

A shallow embedding of the two batch paths of the repository:

* `TableBasics.AddMovieBatch` (src/actions/table_basics.go, lines 132-167): the
  chunking loop that sends `BatchWriteItem` calls of at most 25 put requests;
* `PartiQLRunner.AddMovieBatch`, `GetMovieBatch`, `UpdateMovieBatch`,
  `DeleteMovieBatch` (src/actions/partiql.go, lines 115-216): one
  `BatchExecuteStatement` call per operation.

The remote service and the attribute-value marshaling layer are parameters of
the model. Go `int` values are integers (`Int`); no computation of the code
leaves the 64-bit range, since every index is at most `len(movies) + 25`.
A Go `error` is an `Option ε`, with `none` for `nil`. Every remote call the
code issues is recorded, in call order, in a ghost log that the code itself
never reads.
-/

namespace GoDynamo

/-- Ways a modelled Go function can end: a normal return, a runtime panic, or
the exhaustion of the iteration budget given to the model of a `for` loop. -/
inductive Outcome (β : Type) where
  | ret (val : β)
  | panicked
  | fuelOut
  deriving DecidableEq, Repr

/-- The slice expression `s[lo:hi]` of Go on a slice whose capacity is its
length: it panics (`none`) unless `0 <= lo <= hi <= len(s)`. -/
def goSlice {α : Type} (s : List α) (lo hi : Int) : Option (List α) :=
  if 0 ≤ lo ∧ lo ≤ hi ∧ hi ≤ (s.length : Int) then
    some ((s.drop lo.toNat).take (hi.toNat - lo.toNat))
  else none

/-- `types.WriteRequest{PutRequest: &types.PutRequest{Item: item}}`. -/
structure WriteRequest (ι : Type) where
  PutRequest : ι
  deriving DecidableEq, Repr

/-- One `BatchWriteItem` call as the ghost log records it: the bounds of the
slice `movies[start:end]` taken for it, that slice, the write requests sent,
and the error the service answered (`none` for `nil`). -/
structure CallRecord (α ι ε : Type) where
  start : Int
  stop : Int
  chunk : List α
  reqs : List (WriteRequest ι)
  result : Option ε
  deriving DecidableEq, Repr

/-- The local variables of `TableBasics.AddMovieBatch` (`stop` is the
variable `end`), the state of the remote service, and the ghost log. -/
structure LoopState (α ι ε σ : Type) where
  err : Option ε
  written : Int
  start : Int
  stop : Int
  svc : σ
  log : List (CallRecord α ι ε)
  deriving DecidableEq, Repr

/-- What `TableBasics.AddMovieBatch` returns, `(written, err)`, with the
calls it issued. -/
structure BatchResult (α ι ε : Type) where
  written : Int
  err : Option ε
  calls : List (CallRecord α ι ε)
  deriving DecidableEq, Repr

namespace TableBasics

/-- The constant `batchSize := 25` of `AddMovieBatch`. -/
def batchSize : Int := 25

/-- The inner loop `for _, movie := range movies[start:end]` (lines 144-154):
each movie is marshaled, `err` is overwritten by the outcome, and a put
request is appended when marshaling succeeds. -/
def marshalChunk {α ι ε : Type} (marshalMap : α → Except ε ι) :
    List α → Option ε × List (WriteRequest ι) → Option ε × List (WriteRequest ι)
  | [], acc => acc
  | movie :: rest, (_, writeReqs) =>
    match marshalMap movie with
    | .error e => marshalChunk marshalMap rest (some e, writeReqs)
    | .ok item => marshalChunk marshalMap rest (none, writeReqs ++ [⟨item⟩])

/-- The loop condition `start < maxMovies && start < len(movies)` (line 139). -/
def loopCond {α ι ε σ : Type} (movies : List α) (maxMovies : Int)
    (st : LoopState α ι ε σ) : Bool :=
  decide (st.start < maxMovies) && decide (st.start < (movies.length : Int))

/-- One execution of the loop body (lines 140-163); `none` is the panic of an
out-of-range slice expression. -/
def loopBody {α ι ε σ : Type} (marshalMap : α → Except ε ι)
    (batchWriteItem : σ → List (WriteRequest ι) → Option ε × σ)
    (movies : List α) (st : LoopState α ι ε σ) : Option (LoopState α ι ε σ) :=
  let stop := if st.stop > (movies.length : Int) then (movies.length : Int) else st.stop
  match goSlice movies st.start stop with
  | none => none
  | some chunk =>
    let marshaled := marshalChunk marshalMap chunk (st.err, [])
    let writeReqs := marshaled.2
    let answer := batchWriteItem st.svc writeReqs
    let err := answer.1
    let written :=
      if err.isSome then st.written else st.written + (writeReqs.length : Int)
    some { err := err
           written := written
           start := stop
           stop := stop + batchSize
           svc := answer.2
           log := st.log ++ [⟨st.start, stop, chunk, writeReqs, err⟩] }

/-- The `for` loop of lines 139-164, with an iteration budget. -/
def loop {α ι ε σ : Type} (marshalMap : α → Except ε ι)
    (batchWriteItem : σ → List (WriteRequest ι) → Option ε × σ)
    (movies : List α) (maxMovies : Int) :
    Nat → LoopState α ι ε σ → Outcome (LoopState α ι ε σ)
  | 0, st => if loopCond movies maxMovies st then .fuelOut else .ret st
  | fuel + 1, st =>
    if loopCond movies maxMovies st then
      match loopBody marshalMap batchWriteItem movies st with
      | none => .panicked
      | some st' => loop marshalMap batchWriteItem movies maxMovies fuel st'
    else .ret st

/-- The state at loop entry: `err` nil, `written := 0`, `start := 0`,
`end := start + batchSize` (lines 133-138). -/
def initState {α ι ε σ : Type} (svc : σ) : LoopState α ι ε σ :=
  { err := none, written := 0, start := 0, stop := 0 + batchSize, svc := svc, log := [] }

/-- `TableBasics.AddMovieBatch` run with an explicit iteration budget. -/
def AddMovieBatchFuel {α ι ε σ : Type} (marshalMap : α → Except ε ι)
    (batchWriteItem : σ → List (WriteRequest ι) → Option ε × σ) (svc : σ)
    (movies : List α) (maxMovies : Int) (fuel : Nat) : Outcome (BatchResult α ι ε) :=
  match loop marshalMap batchWriteItem movies maxMovies fuel (initState svc) with
  | .ret st => .ret ⟨st.written, st.err, st.log⟩
  | .panicked => .panicked
  | .fuelOut => .fuelOut

/-- `TableBasics.AddMovieBatch(movies, maxMovies)`: the loop run with a budget
of `len(movies) + 1` iterations, which it never exhausts. -/
def AddMovieBatch {α ι ε σ : Type} (marshalMap : α → Except ε ι)
    (batchWriteItem : σ → List (WriteRequest ι) → Option ε × σ) (svc : σ)
    (movies : List α) (maxMovies : Int) : Outcome (BatchResult α ι ε) :=
  AddMovieBatchFuel marshalMap batchWriteItem svc movies maxMovies (movies.length + 1)

end TableBasics

/-- Modelled from the spec: the `Movie` record, "a movie with title/year/info
attributes", whose declaration is not among the source files; `κ` is the type
of the `info` attribute bag. -/
structure Movie (κ : Type) where
  Title : String
  Year : Int
  Info : κ
  deriving DecidableEq, Repr

/-- An element of the `[]interface{}` handed to `attributevalue.MarshalList`;
`ρ` is the type of ratings (`float64` in the source). -/
inductive Param (κ ρ : Type) where
  | str (s : String)
  | int (i : Int)
  | info (k : κ)
  | rating (r : ρ)
  deriving DecidableEq, Repr

/-- `types.BatchStatementRequest`, with `none` for a nil field. -/
structure BatchStatementRequest (π : Type) where
  Statement : Option String
  Parameters : Option π
  deriving DecidableEq, Repr

/-- `types.BatchStatementResponse`, reduced to its `Item`. -/
structure BatchStatementResponse (ι : Type) where
  Item : ι
  deriving DecidableEq, Repr

/-- What a PartiQL batch write returns, `err`, with the calls it issued. -/
structure ExecResult (π ε : Type) where
  err : Option ε
  calls : List (List (BatchStatementRequest π))
  deriving DecidableEq, Repr

/-- What `PartiQLRunner.GetMovieBatch` returns, `(outMovies, err)`, with the
calls it issued. -/
structure GetResult (μ π ε : Type) where
  movies : List μ
  err : Option ε
  calls : List (List (BatchStatementRequest π))
  deriving DecidableEq, Repr

namespace PartiQLRunner

/-- The statement text of `AddMovieBatch` (lines 123-124). -/
def insertStatement (tableName : String) : String :=
  "INSERT INTO \x22" ++ tableName ++
    "\x22 VALUE \x7b\x27title\x27: ?, \x27year\x27: ?, \x27info\x27: ?\x7d"

/-- The statement text of `GetMovieBatch` (line 147). -/
def selectStatement (tableName : String) : String :=
  "SELECT * FROM \x22" ++ tableName ++ "\x22 WHERE title=? AND year=?"

/-- The statement text of `UpdateMovieBatch` (line 181). -/
def updateStatement (tableName : String) : String :=
  "UPDATE \x22" ++ tableName ++ "\x22 SET info.rating=? WHERE title=? AND year=?"

/-- The statement text of `DeleteMovieBatch` (line 204). -/
def deleteStatement (tableName : String) : String :=
  "DELETE FROM \x22" ++ tableName ++ "\x22 WHERE title=? AND year=?"

/-- The loop `for index, movie := range movies` that the four batch
operations share word for word, up to the statement text and the list of
parameters: the parameters are built (`none` is the panic of an index out of
range), marshaled (a marshaling error panics), and the request is stored at
`statementRequests[index]` (an index out of range panics). -/
def fillStatements {μ κ ρ π ε : Type} (statement : String)
    (params : Nat → μ → Option (List (Param κ ρ)))
    (marshalList : List (Param κ ρ) → Except ε π) :
    List μ → Nat → List (BatchStatementRequest π) →
      Outcome (List (BatchStatementRequest π))
  | [], _, statementRequests => .ret statementRequests
  | movie :: rest, index, statementRequests =>
    match params index movie with
    | none => .panicked
    | some values =>
      match marshalList values with
      | .error _ => .panicked
      | .ok marshaled =>
        if index < statementRequests.length then
          fillStatements statement params marshalList rest (index + 1)
            (statementRequests.set index ⟨some statement, some marshaled⟩)
        else .panicked

/-- The statement requests of one batch operation:
`make([]types.BatchStatementRequest, len(movies))` filled by the loop. -/
def buildStatements {μ κ ρ π ε : Type} (statement : String)
    (params : Nat → μ → Option (List (Param κ ρ)))
    (marshalList : List (Param κ ρ) → Except ε π) (movies : List μ) :
    Outcome (List (BatchStatementRequest π)) :=
  fillStatements statement params marshalList movies 0
    (List.replicate movies.length ⟨none, none⟩)

/-- The single `BatchExecuteStatement` call of a batch write and the return of
its error (lines 129-135, 186-192, 209-215). -/
def executeBatch {π ι ε : Type}
    (batchExecuteStatement :
      List (BatchStatementRequest π) → Except ε (List (BatchStatementResponse ι))) :
    Outcome (List (BatchStatementRequest π)) → Outcome (ExecResult π ε)
  | .ret statementRequests =>
    match batchExecuteStatement statementRequests with
    | .error e => .ret ⟨some e, [statementRequests]⟩
    | .ok _ => .ret ⟨none, [statementRequests]⟩
  | .panicked => .panicked
  | .fuelOut => .fuelOut

/-- `PartiQLRunner.AddMovieBatch(movies)` (lines 115-136). -/
def AddMovieBatch {κ ρ π ι ε : Type} (tableName : String)
    (marshalList : List (Param κ ρ) → Except ε π)
    (batchExecuteStatement :
      List (BatchStatementRequest π) → Except ε (List (BatchStatementResponse ι)))
    (movies : List (Movie κ)) : Outcome (ExecResult π ε) :=
  executeBatch batchExecuteStatement
    (buildStatements (insertStatement tableName)
      (fun _ movie => some [.str movie.Title, .int movie.Year, .info movie.Info])
      marshalList movies)

/-- The loop `for _, response := range output.Responses` of `GetMovieBatch`
(lines 159-167): `err` is overwritten by the outcome of each decoding, and the
movie is appended when decoding succeeds. -/
def decodeResponses {μ ι ε : Type} (unmarshalMap : ι → Except ε μ) :
    List (BatchStatementResponse ι) → Option ε × List μ → Option ε × List μ
  | [], acc => acc
  | response :: rest, (_, outMovies) =>
    match unmarshalMap response.Item with
    | .error e => decodeResponses unmarshalMap rest (some e, outMovies)
    | .ok movie => decodeResponses unmarshalMap rest (none, outMovies ++ [movie])

/-- `PartiQLRunner.GetMovieBatch(movies)` (lines 138-170). -/
def GetMovieBatch {κ ρ π ι ε : Type} (tableName : String)
    (marshalList : List (Param κ ρ) → Except ε π)
    (batchExecuteStatement :
      List (BatchStatementRequest π) → Except ε (List (BatchStatementResponse ι)))
    (unmarshalMap : ι → Except ε (Movie κ))
    (movies : List (Movie κ)) : Outcome (GetResult (Movie κ) π ε) :=
  match buildStatements (selectStatement tableName)
      (fun _ movie => some [.str movie.Title, .int movie.Year]) marshalList movies with
  | .ret statementRequests =>
    match batchExecuteStatement statementRequests with
    | .error e => .ret ⟨[], some e, [statementRequests]⟩
    | .ok responses =>
      let decoded := decodeResponses unmarshalMap responses (none, [])
      .ret ⟨decoded.2, decoded.1, [statementRequests]⟩
  | .panicked => .panicked
  | .fuelOut => .fuelOut

/-- `PartiQLRunner.UpdateMovieBatch(movies, ratings)` (lines 172-193);
`ratings[index]` panics when `ratings` is shorter than `movies`. -/
def UpdateMovieBatch {κ ρ π ι ε : Type} (tableName : String)
    (marshalList : List (Param κ ρ) → Except ε π)
    (batchExecuteStatement :
      List (BatchStatementRequest π) → Except ε (List (BatchStatementResponse ι)))
    (movies : List (Movie κ)) (ratings : List ρ) : Outcome (ExecResult π ε) :=
  executeBatch batchExecuteStatement
    (buildStatements (updateStatement tableName)
      (fun index movie =>
        (ratings.get? index).map fun r => [.rating r, .str movie.Title, .int movie.Year])
      marshalList movies)

/-- `PartiQLRunner.DeleteMovieBatch(movies)` (lines 195-216). -/
def DeleteMovieBatch {κ ρ π ι ε : Type} (tableName : String)
    (marshalList : List (Param κ ρ) → Except ε π)
    (batchExecuteStatement :
      List (BatchStatementRequest π) → Except ε (List (BatchStatementResponse ι)))
    (movies : List (Movie κ)) : Outcome (ExecResult π ε) :=
  executeBatch batchExecuteStatement
    (buildStatements (deleteStatement tableName)
      (fun _ movie => some [.str movie.Title, .int movie.Year]) marshalList movies)

end PartiQLRunner


/-! ## Auxiliary notions used to state the properties -/

/-- The put request of a movie, when it marshals. -/
def putRequestOf {α ι ε : Type} (marshalMap : α → Except ε ι) (movie : α) :
    Option (WriteRequest ι) :=
  match marshalMap movie with
  | .ok item => some ⟨item⟩
  | .error _ => none

/-- The answers of the remote service to a sequence of `BatchWriteItem` calls
issued one after the other from state `s`, and the state it ends in. -/
def serviceRun {ι ε σ : Type} (batchWriteItem : σ → List (WriteRequest ι) → Option ε × σ) :
    σ → List (List (WriteRequest ι)) → List (Option ε) × σ
  | s, [] => ([], s)
  | s, r :: rs =>
    ((batchWriteItem s r).1 :: (serviceRun batchWriteItem (batchWriteItem s r).2 rs).1,
      (serviceRun batchWriteItem (batchWriteItem s r).2 rs).2)

/-- The number `ceil(min(L, maxMovies) / 25)`, as a natural number (zero when
`maxMovies` is negative). -/
def numCalls (L : Nat) (maxMovies : Int) : Nat :=
  ((min (L : Int) maxMovies).toNat + 24) / 25

/-- The calls a run issued, in call order (none recorded when the run does not
return). -/
def callsOf {α ι ε : Type} : Outcome (BatchResult α ι ε) → List (CallRecord α ι ε)
  | .ret r => r.calls
  | _ => []

/-- The pair `(written, err)` a run returns. -/
def returned {α ι ε : Type} : Outcome (BatchResult α ι ε) → Option (Int × Option ε)
  | .ret r => some (r.written, r.err)
  | _ => none

/-! ## The loop invariant and the facts of a run -/

/-- The invariant of the chunking loop, after `st.log.length` iterations. -/
structure LoopInv {α ι ε σ : Type} (marshalMap : α → Except ε ι)
    (batchWriteItem : σ → List (WriteRequest ι) → Option ε × σ) (svc : σ)
    (movies : List α) (maxMovies : Int) (st : LoopState α ι ε σ) : Prop where
  stop_eq : st.stop = st.start + 25
  start_eq : st.start = min (25 * (st.log.length : Int)) (movies.length : Int)
  last_guard : 0 < st.log.length →
    25 * (st.log.length : Int) - 25 < maxMovies ∧
      25 * (st.log.length : Int) - 25 < (movies.length : Int)
  bounds : ∀ r ∈ st.log, 0 ≤ r.start ∧ r.start < r.stop ∧ r.stop ≤ (movies.length : Int)
  slices : ∀ r ∈ st.log, goSlice movies r.start r.stop = some r.chunk
  chain : List.Chain' (fun a b => b.start = a.stop ∧ a.start < b.start) st.log
  head_start : ∀ r ∈ st.log.head?, r.start = 0
  last_stop : ∀ r ∈ st.log.getLast?, r.stop = st.start
  starts : st.log.map (fun r => r.start)
    = (List.range st.log.length).map fun (i : Nat) => 25 * (i : Int)
  stops : st.log.map (fun r => r.stop)
    = (List.range st.log.length).map
        fun (i : Nat) => min (25 * (i : Int) + 25) (movies.length : Int)
  chunks : st.log.map (fun r => r.chunk)
    = (List.range st.log.length).map fun (i : Nat) => (movies.drop (25 * i)).take 25
  reqs : ∀ r ∈ st.log, r.reqs = r.chunk.filterMap (putRequestOf marshalMap)
  replies : (st.log.map (fun r => r.result), st.svc)
    = serviceRun batchWriteItem svc (st.log.map fun r => r.reqs)
  err_nil : st.log = [] → st.err = none
  err_last : ∀ pre r, st.log = pre ++ [r] → st.err = r.result
  written_eq : st.written
    = ((st.log.filter fun r => r.result.isNone).map fun r => (r.reqs.length : Int)).sum

/-- What holds of the result `r` of a run of `TableBasics.AddMovieBatch` on
`movies` and `maxMovies`, against the service `batchWriteItem` started in
state `svc`. -/
structure RunFacts {α ι ε σ : Type} (marshalMap : α → Except ε ι)
    (batchWriteItem : σ → List (WriteRequest ι) → Option ε × σ) (svc : σ)
    (movies : List α) (maxMovies : Int) (r : BatchResult α ι ε) : Prop where
  count : r.calls.length = numCalls movies.length maxMovies
  bounds : ∀ c ∈ r.calls, 0 ≤ c.start ∧ c.start < c.stop ∧ c.stop ≤ (movies.length : Int)
  slices : ∀ c ∈ r.calls, goSlice movies c.start c.stop = some c.chunk
  chain : List.Chain' (fun a b => b.start = a.stop ∧ a.start < b.start) r.calls
  head_start : ∀ c ∈ r.calls.head?, c.start = 0
  starts : r.calls.map (fun c => c.start)
    = (List.range (numCalls movies.length maxMovies)).map fun (i : Nat) => 25 * (i : Int)
  stops : r.calls.map (fun c => c.stop)
    = (List.range (numCalls movies.length maxMovies)).map
        fun (i : Nat) => min (25 * (i : Int) + 25) (movies.length : Int)
  chunks : r.calls.map (fun c => c.chunk)
    = (List.range (numCalls movies.length maxMovies)).map
        fun (i : Nat) => (movies.drop (25 * i)).take 25
  reqs : ∀ c ∈ r.calls, c.reqs = c.chunk.filterMap (putRequestOf marshalMap)
  replies : r.calls.map (fun c => c.result)
    = (serviceRun batchWriteItem svc (r.calls.map fun c => c.reqs)).1
  err_nil : r.calls = [] → r.err = none
  err_last : ∀ pre c, r.calls = pre ++ [c] → r.err = c.result
  written_eq : r.written
    = ((r.calls.filter fun c => c.result.isNone).map fun c => (c.reqs.length : Int)).sum

/-! ## Notions for the PartiQL operations, and sample inputs -/

/-- The movie a response item decodes to, when it decodes. -/
def decodedMovie {μ ι ε : Type} (unmarshalMap : ι → Except ε μ)
    (response : BatchStatementResponse ι) : Option μ :=
  match unmarshalMap response.Item with
  | .ok movie => some movie
  | .error _ => none

/-- The numbers of statements of the calls a PartiQL batch write issued. -/
def statementCounts {π ε : Type} : Outcome (ExecResult π ε) → List Nat
  | .ret r => r.calls.map List.length
  | _ => []

/-- The numbers of statements of the calls `GetMovieBatch` issued. -/
def getStatementCounts {μ π ε : Type} : Outcome (GetResult μ π ε) → List Nat
  | .ret r => r.calls.map List.length
  | _ => []

/-- The calls `GetMovieBatch` issued, in call order (none recorded when the run
does not return). -/
def getCallsOf {μ π ε : Type} :
    Outcome (GetResult μ π ε) → List (List (BatchStatementRequest π))
  | .ret r => r.calls
  | _ => []

/-- The years of the movies and the error that `GetMovieBatch` returns. -/
def yearsAndError {κ π ε : Type} :
    Outcome (GetResult (Movie κ) π ε) → Option (List Int × Option ε)
  | .ret r => some (r.movies.map (fun m => m.Year), r.err)
  | _ => none

/-- A parameter marshaling that accepts every list. -/
def okParams : List (Param Unit Nat) → Except String (List (Param Unit Nat)) :=
  fun values => .ok values

/-- Whether a parameter is an `info` attribute bag. -/
def isInfo : Param Unit Nat → Bool
  | .info _ => true
  | _ => false

/-- A parameter marshaling that rejects the lists holding an `info` attribute
bag and accepts the others. -/
def pickyParams (values : List (Param Unit Nat)) :
    Except String (List (Param Unit Nat)) :=
  match values.any isInfo with
  | true => .error "unsupported"
  | false => .ok values

/-- A statement service whose call succeeds with no response item. -/
def okExec : List (BatchStatementRequest (List (Param Unit Nat))) →
    Except String (List (BatchStatementResponse Nat)) :=
  fun _ => .ok []

/-- A statement service whose call succeeds and answers the given items. -/
def answerExec (items : List Nat) : List (BatchStatementRequest (List (Param Unit Nat))) →
    Except String (List (BatchStatementResponse Nat)) :=
  fun _ => .ok (items.map fun i => ⟨i⟩)

/-- A decoding that rejects the item 0 and reads any other item as a year. -/
def yearUnmarshal : Nat → Except String (Movie Unit) :=
  fun item => if item = 0 then .error "malformed" else .ok ⟨"movie", item, ()⟩

/-- A list of `n` movies. -/
def sampleMovies (n : Nat) : List (Movie Unit) :=
  (List.range n).map fun i => ⟨"movie", i, ()⟩

/-- A marshaling layer that accepts every record. -/
def okMarshal : Nat → Except String Nat := fun m => .ok m

/-- A remote service without state whose calls all succeed. -/
def okService : Unit → List (WriteRequest Nat) → Option String × Unit :=
  fun s _ => (none, s)

/-- A remote service that counts its calls and fails the first one only. -/
def failFirstService : Nat → List (WriteRequest Nat) → Option String × Nat :=
  fun s _ => (if s = 0 then some "throttled" else none, s + 1)

/-- A remote service whose calls all fail. -/
def downService : Unit → List (WriteRequest Nat) → Option String × Unit :=
  fun s _ => (some "unavailable", s)

/-! ## Lemmas on the helpers -/

theorem marshalChunk_snd {α ι ε : Type} (marshalMap : α → Except ε ι) (chunk : List α) :
    ∀ (e : Option ε) (acc : List (WriteRequest ι)),
      (TableBasics.marshalChunk marshalMap chunk (e, acc)).2
        = acc ++ chunk.filterMap (putRequestOf marshalMap) := by
  induction chunk with
  | nil => intro e acc; simp [TableBasics.marshalChunk]
  | cons m rest ih =>
    intro e acc
    cases hm : marshalMap m with
    | error x => simp [TableBasics.marshalChunk, hm, ih, putRequestOf, List.filterMap_cons]
    | ok item => simp [TableBasics.marshalChunk, hm, ih, putRequestOf, List.filterMap_cons]

theorem serviceRun_append {ι ε σ : Type}
    (batchWriteItem : σ → List (WriteRequest ι) → Option ε × σ)
    (rs : List (List (WriteRequest ι))) (r : List (WriteRequest ι)) :
    ∀ s, serviceRun batchWriteItem s (rs ++ [r])
      = ((serviceRun batchWriteItem s rs).1
            ++ [(batchWriteItem (serviceRun batchWriteItem s rs).2 r).1],
          (batchWriteItem (serviceRun batchWriteItem s rs).2 r).2) := by
  induction rs with
  | nil => intro s; simp [serviceRun]
  | cons a rest ih => intro s; simp [serviceRun, ih]

theorem goSlice_eq {α : Type} (movies : List α) (k : Nat)
    (hk : 25 * (k : Int) < (movies.length : Int)) (stop : Int)
    (hstop : stop = min (25 * (k : Int) + 25) (movies.length : Int)) :
    goSlice movies (25 * (k : Int)) stop = some ((movies.drop (25 * k)).take 25) := by
  have h1 : (25 * (k : Int)).toNat = 25 * k := by omega
  have hc : 0 ≤ 25 * (k : Int) ∧ 25 * (k : Int) ≤ stop ∧ stop ≤ (movies.length : Int) := by
    omega
  unfold goSlice
  rw [if_pos hc, h1]
  congr 1
  by_cases hle : 25 * (k : Int) + 25 ≤ (movies.length : Int)
  · have : stop.toNat - 25 * k = 25 := by omega
    rw [this]
  · have hlen : (movies.drop (25 * k)).length ≤ stop.toNat - 25 * k := by
      rw [List.length_drop]; omega
    have hlen' : (movies.drop (25 * k)).length ≤ 25 := by
      rw [List.length_drop]; omega
    rw [List.take_of_length_le hlen, List.take_of_length_le hlen']

/-! ## Preservation of the loop invariant -/

theorem loopInv_init {α ι ε σ : Type} (marshalMap : α → Except ε ι)
    (batchWriteItem : σ → List (WriteRequest ι) → Option ε × σ) (svc : σ)
    (movies : List α) (maxMovies : Int) :
    LoopInv marshalMap batchWriteItem svc movies maxMovies
      (TableBasics.initState svc : LoopState α ι ε σ) := by
  refine ⟨?_, ?_, ?_, ?_, ?_, ?_, ?_, ?_, ?_, ?_, ?_, ?_, ?_, ?_, ?_, ?_⟩ <;>
    simp [TableBasics.initState, TableBasics.batchSize, serviceRun]

theorem loopCond_iff {α ι ε σ : Type} (movies : List α) (maxMovies : Int)
    (st : LoopState α ι ε σ) :
    TableBasics.loopCond movies maxMovies st = true
      ↔ st.start < maxMovies ∧ st.start < (movies.length : Int) := by
  simp [TableBasics.loopCond]

theorem loopBody_of_slice {α ι ε σ : Type} (marshalMap : α → Except ε ι)
    (batchWriteItem : σ → List (WriteRequest ι) → Option ε × σ)
    (movies : List α) (st : LoopState α ι ε σ) (chunk : List α)
    (h : goSlice movies st.start
      (if st.stop > (movies.length : Int) then (movies.length : Int) else st.stop) = some chunk) :
    TableBasics.loopBody marshalMap batchWriteItem movies st
      = some
        { err := (batchWriteItem st.svc
            (TableBasics.marshalChunk marshalMap chunk (st.err, [])).2).1
          written :=
            if (batchWriteItem st.svc
                (TableBasics.marshalChunk marshalMap chunk (st.err, [])).2).1.isSome
            then st.written
            else st.written
              + ((TableBasics.marshalChunk marshalMap chunk (st.err, [])).2.length : Int)
          start := if st.stop > (movies.length : Int) then (movies.length : Int) else st.stop
          stop := (if st.stop > (movies.length : Int) then (movies.length : Int) else st.stop)
            + TableBasics.batchSize
          svc := (batchWriteItem st.svc
            (TableBasics.marshalChunk marshalMap chunk (st.err, [])).2).2
          log := st.log ++
            [⟨st.start,
              if st.stop > (movies.length : Int) then (movies.length : Int) else st.stop,
              chunk, (TableBasics.marshalChunk marshalMap chunk (st.err, [])).2,
              (batchWriteItem st.svc
                (TableBasics.marshalChunk marshalMap chunk (st.err, [])).2).1⟩] } := by
  unfold TableBasics.loopBody
  simp only [h]

theorem loopInv_step {α ι ε σ : Type} (marshalMap : α → Except ε ι)
    (batchWriteItem : σ → List (WriteRequest ι) → Option ε × σ) (svc : σ)
    (movies : List α) (maxMovies : Int) (st : LoopState α ι ε σ)
    (hinv : LoopInv marshalMap batchWriteItem svc movies maxMovies st)
    (hcond : TableBasics.loopCond movies maxMovies st = true) :
    ∃ st', TableBasics.loopBody marshalMap batchWriteItem movies st = some st'
      ∧ LoopInv marshalMap batchWriteItem svc movies maxMovies st'
      ∧ ((movies.length : Int) - st'.start).toNat < ((movies.length : Int) - st.start).toNat := by
  rw [loopCond_iff] at hcond
  obtain ⟨hmax, hlen⟩ := hcond
  have hs := hinv.start_eq
  have hst := hinv.stop_eq
  have hk : 25 * (st.log.length : Int) < (movies.length : Int) := by omega
  have hstart : st.start = 25 * (st.log.length : Int) := by omega
  have hstop' : (if st.stop > (movies.length : Int) then (movies.length : Int) else st.stop)
      = min (25 * (st.log.length : Int) + 25) (movies.length : Int) := by
    split <;> omega
  have hslice := goSlice_eq movies st.log.length hk _ hstop'
  rw [← hstart] at hslice
  have hrep := hinv.replies
  have hsvc : st.svc = (serviceRun batchWriteItem svc (st.log.map fun r => r.reqs)).2 := by
    rw [← hrep]
  have hres : st.log.map (fun r => r.result)
      = (serviceRun batchWriteItem svc (st.log.map fun r => r.reqs)).1 := by
    rw [← hrep]
  refine ⟨_, loopBody_of_slice marshalMap batchWriteItem movies st _ hslice, ?_, ?_⟩
  · refine ⟨?_, ?_, ?_, ?_, ?_, ?_, ?_, ?_, ?_, ?_, ?_, ?_, ?_, ?_, ?_, ?_⟩
    · simp [TableBasics.batchSize]
    · simp only [List.length_append, List.length_singleton]
      rw [hstop']; push_cast; congr 1
    · intro _
      simp only [List.length_append, List.length_singleton]
      push_cast; omega
    · intro r hr
      rcases List.mem_append.1 hr with h | h
      · exact hinv.bounds r h
      · simp only [List.mem_singleton] at h
        subst h
        simp only
        omega
    · intro r hr
      rcases List.mem_append.1 hr with h | h
      · exact hinv.slices r h
      · simp only [List.mem_singleton] at h
        subst h
        exact hslice
    · refine List.Chain'.append hinv.chain (List.chain'_singleton _) ?_
      intro x hx y hy
      have hxs := hinv.last_stop x hx
      have hxm := hinv.bounds x (List.mem_of_mem_getLast? hx)
      simp only [List.head?_cons, Option.mem_def, Option.some.injEq] at hy
      subst hy
      simp only
      omega
    · intro r hr
      rcases hl : st.log with _ | ⟨a, rest⟩
      · rw [hl] at hr
        simp only [List.nil_append, List.head?_cons, Option.mem_def, Option.some.injEq] at hr
        subst hr
        simp only [hstart, hl, List.length_nil]
        rfl
      · rw [hl] at hr
        simp only [List.cons_append, List.head?_cons, Option.mem_def, Option.some.injEq] at hr
        have := hinv.head_start a (by rw [hl]; simp)
        rw [← hr]; exact this
    · intro r hr
      rw [List.getLast?_concat] at hr
      simp only [Option.mem_def, Option.some.injEq] at hr
      subst hr
      rfl
    · simp only [List.map_append, List.length_append, List.length_singleton, List.range_succ,
        List.map_cons, List.map_nil, hinv.starts, hstart]
    · simp only [List.map_append, List.length_append, List.length_singleton, List.range_succ,
        List.map_cons, List.map_nil, hinv.stops, hstop']
    · simp only [List.map_append, List.length_append, List.length_singleton, List.range_succ,
        List.map_cons, List.map_nil, hinv.chunks]
    · intro r hr
      rcases List.mem_append.1 hr with h | h
      · exact hinv.reqs r h
      · simp only [List.mem_singleton] at h
        subst h
        simp [marshalChunk_snd]
    · simp only [List.map_append, List.map_cons, List.map_nil, serviceRun_append, hres, hsvc]
    · intro h; simp at h
    · intro pre r h
      have := List.append_inj' h (by simp)
      simp only [List.cons.injEq, and_true] at this
      rw [← this.2]
    · simp only [List.filter_append, List.map_append, List.sum_append, hinv.written_eq]
      cases hr : (batchWriteItem st.svc
          (TableBasics.marshalChunk marshalMap (List.take 25 (List.drop (25 * st.log.length) movies))
            (st.err, [])).2).1 <;> simp [hr, List.filter_cons]
  · simp only
    omega

theorem loop_returns {α ι ε σ : Type} (marshalMap : α → Except ε ι)
    (batchWriteItem : σ → List (WriteRequest ι) → Option ε × σ) (svc : σ)
    (movies : List α) (maxMovies : Int) :
    ∀ (fuel : Nat) (st : LoopState α ι ε σ),
      LoopInv marshalMap batchWriteItem svc movies maxMovies st →
      ((movies.length : Int) - st.start).toNat < fuel →
      ∃ st', TableBasics.loop marshalMap batchWriteItem movies maxMovies fuel st = .ret st'
        ∧ LoopInv marshalMap batchWriteItem svc movies maxMovies st'
        ∧ TableBasics.loopCond movies maxMovies st' = false := by
  intro fuel
  induction fuel with
  | zero => intro st _ h; omega
  | succ n ih =>
    intro st hinv hfuel
    cases hc : TableBasics.loopCond movies maxMovies st with
    | false => exact ⟨st, by simp [TableBasics.loop, hc], hinv, hc⟩
    | true =>
      obtain ⟨st1, hbody, hinv1, hdec⟩ :=
        loopInv_step marshalMap batchWriteItem svc movies maxMovies st hinv hc
      obtain ⟨st2, hrun, hinv2, hc2⟩ := ih st1 hinv1 (by omega)
      exact ⟨st2, by simp [TableBasics.loop, hc, hbody, hrun], hinv2, hc2⟩

theorem runFacts_of_inv {α ι ε σ : Type} (marshalMap : α → Except ε ι)
    (batchWriteItem : σ → List (WriteRequest ι) → Option ε × σ) (svc : σ)
    (movies : List α) (maxMovies : Int) (st : LoopState α ι ε σ)
    (hinv : LoopInv marshalMap batchWriteItem svc movies maxMovies st)
    (hc : TableBasics.loopCond movies maxMovies st = false) :
    RunFacts marshalMap batchWriteItem svc movies maxMovies ⟨st.written, st.err, st.log⟩ := by
  have hcount : st.log.length = numCalls movies.length maxMovies := by
    have hs := hinv.start_eq
    have hg := hinv.last_guard
    have hn : ¬ (st.start < maxMovies ∧ st.start < (movies.length : Int)) := by
      rw [← loopCond_iff (ι := ι) (ε := ε) (σ := σ), hc]; simp
    unfold numCalls
    rcases Nat.eq_zero_or_pos st.log.length with h0 | hpos
    · rw [h0] at hs ⊢
      omega
    · have := hg hpos
      omega
  refine ⟨hcount, hinv.bounds, hinv.slices, hinv.chain, hinv.head_start, ?_, ?_, ?_, hinv.reqs, ?_, hinv.err_nil, hinv.err_last,
    hinv.written_eq⟩
  · rw [← hcount]; exact hinv.starts
  · rw [← hcount]; exact hinv.stops
  · rw [← hcount]; exact hinv.chunks
  · have := hinv.replies
    simp only
    rw [← this]

/-- The run of `TableBasics.AddMovieBatch` returns, with the facts of
`RunFacts`. -/
theorem addMovieBatch_facts {α ι ε σ : Type} (marshalMap : α → Except ε ι)
    (batchWriteItem : σ → List (WriteRequest ι) → Option ε × σ) (svc : σ)
    (movies : List α) (maxMovies : Int) :
    ∃ r, TableBasics.AddMovieBatch marshalMap batchWriteItem svc movies maxMovies = .ret r
      ∧ RunFacts marshalMap batchWriteItem svc movies maxMovies r := by
  obtain ⟨st, hrun, hinv, hc⟩ :=
    loop_returns marshalMap batchWriteItem svc movies maxMovies (movies.length + 1)
      (TableBasics.initState svc) (loopInv_init marshalMap batchWriteItem svc movies maxMovies)
      (by simp [TableBasics.initState])
  refine ⟨⟨st.written, st.err, st.log⟩, ?_, runFacts_of_inv _ _ _ _ _ st hinv hc⟩
  simp [TableBasics.AddMovieBatch, TableBasics.AddMovieBatchFuel, hrun]

/-- A larger iteration budget does not change a run that returned. -/
theorem loop_fuel_mono {α ι ε σ : Type} (marshalMap : α → Except ε ι)
    (batchWriteItem : σ → List (WriteRequest ι) → Option ε × σ)
    (movies : List α) (maxMovies : Int) :
    ∀ (fuel extra : Nat) (st st' : LoopState α ι ε σ),
      TableBasics.loop marshalMap batchWriteItem movies maxMovies fuel st = .ret st' →
      TableBasics.loop marshalMap batchWriteItem movies maxMovies (fuel + extra) st = .ret st' := by
  intro fuel
  induction fuel with
  | zero =>
    intro extra st st' h
    cases hc : TableBasics.loopCond movies maxMovies st with
    | true => simp [TableBasics.loop, hc] at h
    | false =>
      simp only [TableBasics.loop, hc] at h
      cases extra with
      | zero => simpa [TableBasics.loop, hc] using h
      | succ e => simpa [TableBasics.loop, hc] using h
  | succ n ih =>
    intro extra st st' h
    have hadd : n + 1 + extra = (n + extra) + 1 := by omega
    rw [hadd]
    cases hc : TableBasics.loopCond movies maxMovies st with
    | false => simpa [TableBasics.loop, hc] using h
    | true =>
      simp only [TableBasics.loop, hc, if_true] at h ⊢
      cases hb : TableBasics.loopBody marshalMap batchWriteItem movies st with
      | none => simp [hb] at h
      | some st1 =>
        simp only [hb] at h ⊢
        exact ih extra st1 st' h

/-! ## Arithmetic and list lemmas -/

theorem ceil_div_batch (n : Int) : ⌈(n : ℚ) / 25⌉ = (n + 24) / 25 := by
  rw [Int.ceil_eq_iff]
  have h1 : 25 * ((n + 24) / 25) ≤ n + 24 := by omega
  have h2 : n ≤ 25 * ((n + 24) / 25) := by omega
  have h1q : (25 : ℚ) * (((n + 24) / 25 : Int) : ℚ) ≤ (n : ℚ) + 24 := by exact_mod_cast h1
  have h2q : (n : ℚ) ≤ 25 * (((n + 24) / 25 : Int) : ℚ) := by exact_mod_cast h2
  constructor
  · rw [lt_div_iff₀ (by norm_num)]; linarith
  · rw [div_le_iff₀ (by norm_num)]; linarith

theorem numCalls_eq_ceil (L : Nat) (maxMovies : Int) (h : 0 ≤ maxMovies) :
    (numCalls L maxMovies : Int) = ⌈((min (L : Int) maxMovies : Int) : ℚ) / 25⌉ := by
  rw [ceil_div_batch]
  unfold numCalls
  omega

theorem flatten_windows {α : Type} (l : List α) (n : Nat) :
    ((List.range n).map fun (i : Nat) => (l.drop (25 * i)).take 25).flatten
      = l.take (25 * n) := by
  induction n with
  | zero => simp
  | succ k ih =>
    rw [List.range_succ, List.map_append, List.flatten_append, ih]
    simp only [List.map_cons, List.map_nil, List.flatten_cons, List.flatten_nil,
      List.append_nil]
    rw [Nat.mul_succ, List.take_add]

theorem take_numCalls {α : Type} (movies : List α) (maxMovies : Int) :
    movies.take (25 * numCalls movies.length maxMovies)
      = movies.take (min movies.length (25 * ((maxMovies.toNat + 24) / 25))) := by
  rw [List.take_eq_take]
  unfold numCalls
  omega

theorem goSlice_length {α : Type} (s : List α) (lo hi : Int) (c : List α)
    (h : goSlice s lo hi = some c) : (c.length : Int) = hi - lo := by
  unfold goSlice at h
  split at h
  · rename_i hc
    simp only [Option.some.injEq] at h
    rw [← h, List.length_take, List.length_drop]
    omega
  · simp at h

theorem chunk_length_le {α : Type} (movies : List α) (n : Nat) (c : List α)
    (h : c ∈ (List.range n).map fun (i : Nat) => (movies.drop (25 * i)).take 25) :
    c.length ≤ 25 := by
  obtain ⟨i, _, rfl⟩ := List.mem_map.1 h
  exact List.length_take_le 25 _

theorem sum_lengths_flatten {α : Type} (ls : List (List α)) :
    (ls.map fun l => (l.length : Int)).sum = (ls.flatten.length : Int) := by
  induction ls with
  | nil => simp
  | cons a rest ih =>
    simp only [List.map_cons, List.sum_cons, List.flatten_cons, List.length_append, ih]
    push_cast
    rfl

theorem filterMap_putRequestOf_length {α ι ε : Type} (marshalMap : α → Except ε ι)
    (chunk : List α) (h : ∀ m ∈ chunk, ∃ item, marshalMap m = .ok item) :
    (chunk.filterMap (putRequestOf marshalMap)).length = chunk.length := by
  induction chunk with
  | nil => simp
  | cons a rest ih =>
    obtain ⟨item, hitem⟩ := h a (List.mem_cons_self _ _)
    have hrest := ih fun m hm => h m (List.mem_cons_of_mem _ hm)
    simp [List.filterMap_cons, putRequestOf, hitem, hrest]

theorem mem_of_goSlice {α : Type} (s : List α) (lo hi : Int) (c : List α)
    (h : goSlice s lo hi = some c) : ∀ m ∈ c, m ∈ s := by
  unfold goSlice at h
  split at h
  · simp only [Option.some.injEq] at h
    intro m hm
    rw [← h] at hm
    exact List.mem_of_mem_drop (List.mem_of_mem_take hm)
  · simp at h

/-! ## The chunking loop of `TableBasics.AddMovieBatch` -/

/-- C1: for every list of movies and every cap `maxMovies >= 0`,
`TableBasics.AddMovieBatch` returns after issuing exactly
`ceil(min(L, maxMovies) / 25)` `BatchWriteItem` calls, whatever the marshaling
layer and the remote service do: no call when the list is empty or the cap is
0, one call for 25 movies and two calls for 26 movies when `maxMovies >= L`. -/
theorem addMovieBatch_issues_ceil_calls {α ι ε σ : Type} (marshalMap : α → Except ε ι)
    (batchWriteItem : σ → List (WriteRequest ι) → Option ε × σ) (svc : σ)
    (movies : List α) (maxMovies : Int) (hmax : 0 ≤ maxMovies) :
    ∃ r, TableBasics.AddMovieBatch marshalMap batchWriteItem svc movies maxMovies = .ret r
      ∧ (r.calls.length : Int) = ⌈((min (movies.length : Int) maxMovies : Int) : ℚ) / 25⌉
      ∧ (movies = [] ∨ maxMovies = 0 → r.calls = [])
      ∧ (movies.length = 25 → 25 ≤ maxMovies → r.calls.length = 1)
      ∧ (movies.length = 26 → 26 ≤ maxMovies → r.calls.length = 2) := by
  obtain ⟨r, hrun, hf⟩ := addMovieBatch_facts marshalMap batchWriteItem svc movies maxMovies
  have hc := hf.count
  refine ⟨r, hrun, ?_, ?_, ?_, ?_⟩
  · rw [hc, numCalls_eq_ceil _ _ hmax]
  · intro h
    apply List.eq_nil_of_length_eq_zero
    rw [hc]
    unfold numCalls
    rcases h with h | h
    · subst h
      simp only [List.length_nil]
      omega
    · omega
  · intro hl hm
    rw [hc]; unfold numCalls; omega
  · intro hl hm
    rw [hc]; unfold numCalls; omega

/-- Witness of C1: 26 movies with `maxMovies = 26`. -/
theorem addMovieBatch_issues_ceil_calls_witness :
    (0 : Int) ≤ 26 ∧
    ∃ r, TableBasics.AddMovieBatch okMarshal okService () (List.range 26) 26 = .ret r
      ∧ (r.calls.length : Int)
        = ⌈((min ((List.range 26).length : Int) 26 : Int) : ℚ) / 25⌉
      ∧ (List.range 26 = [] ∨ (26 : Int) = 0 → r.calls = [])
      ∧ ((List.range 26).length = 25 → (25 : Int) ≤ 26 → r.calls.length = 1)
      ∧ ((List.range 26).length = 26 → (26 : Int) ≤ 26 → r.calls.length = 2) :=
  ⟨by decide, addMovieBatch_issues_ceil_calls okMarshal okService () (List.range 26) 26
    (by decide)⟩

/-- C2 as stated fails: with 50 movies and `maxMovies = 30` the two chunks
submitted have 25 and 25 records, not 25 and 5, and their concatenation is not
the first 30 records. -/
theorem addMovieBatch_cap_not_truncating :
    (callsOf (TableBasics.AddMovieBatch okMarshal okService () (List.range 50) 30)).map
        (fun c => c.chunk.length) = [25, 25]
    ∧ ((callsOf (TableBasics.AddMovieBatch okMarshal okService () (List.range 50) 30)).map
        (fun c => c.chunk)).flatten ≠ (List.range 50).take 30 := by
  decide

/-- C2, amended: for every list of movies and every cap `maxMovies >= 0`, the
chunks `TableBasics.AddMovieBatch` submits, one per call and in call order,
have at most 25 records each, are contiguous slices `movies[start:end]` (the
first starts at 0 and each starts where the one before ends), and their
concatenation is the first `min(len(movies), 25 * ceil(maxMovies / 25))`
records in their order: the cap counts whole chunks of 25. -/
theorem addMovieBatch_chunks_contiguous {α ι ε σ : Type} (marshalMap : α → Except ε ι)
    (batchWriteItem : σ → List (WriteRequest ι) → Option ε × σ) (svc : σ)
    (movies : List α) (maxMovies : Int) (hmax : 0 ≤ maxMovies) :
    ∃ r, TableBasics.AddMovieBatch marshalMap batchWriteItem svc movies maxMovies = .ret r
      ∧ (∀ c ∈ r.calls, c.chunk.length ≤ 25
          ∧ goSlice movies c.start c.stop = some c.chunk)
      ∧ (∀ c ∈ r.calls.head?, c.start = 0)
      ∧ List.Chain' (fun a b => b.start = a.stop) r.calls
      ∧ (r.calls.map fun c => c.chunk).flatten
          = movies.take (min (movies.length : Int) (25 * ⌈(maxMovies : ℚ) / 25⌉)).toNat := by
  obtain ⟨r, hrun, hf⟩ := addMovieBatch_facts marshalMap batchWriteItem svc movies maxMovies
  refine ⟨r, hrun, ?_, hf.head_start, hf.chain.imp (fun _ _ h => h.1), ?_⟩
  · intro c hc
    refine ⟨?_, hf.slices c hc⟩
    apply chunk_length_le movies (numCalls movies.length maxMovies)
    rw [← hf.chunks]
    exact List.mem_map_of_mem _ hc
  · rw [hf.chunks, flatten_windows, take_numCalls, ceil_div_batch]
    congr 1
    omega

/-- Witness of the amended C2: 50 movies with `maxMovies = 30`. -/
theorem addMovieBatch_chunks_contiguous_witness :
    (0 : Int) ≤ 30 ∧
    ∃ r, TableBasics.AddMovieBatch okMarshal okService () (List.range 50) 30 = .ret r
      ∧ (∀ c ∈ r.calls, c.chunk.length ≤ 25
          ∧ goSlice (List.range 50) c.start c.stop = some c.chunk)
      ∧ (∀ c ∈ r.calls.head?, c.start = 0)
      ∧ List.Chain' (fun a b => b.start = a.stop) r.calls
      ∧ (r.calls.map fun c => c.chunk).flatten
          = (List.range 50).take
              (min ((List.range 50).length : Int) (25 * ⌈((30 : Int) : ℚ) / 25⌉)).toNat :=
  ⟨by decide, addMovieBatch_chunks_contiguous okMarshal okService () (List.range 50) 30
    (by decide)⟩

/-- C10: for every list of movies and every integer `maxMovies`, the chunking
loop of `TableBasics.AddMovieBatch` terminates without a panic within
`len(movies) + 1` iterations (a larger budget changes nothing), every slice
`movies[start:end]` it takes has `0 <= start < end <= len(movies)` and is not
empty, and `start` strictly increases from one iteration to the next. -/
theorem addMovieBatch_loop_safe {α ι ε σ : Type} (marshalMap : α → Except ε ι)
    (batchWriteItem : σ → List (WriteRequest ι) → Option ε × σ) (svc : σ)
    (movies : List α) (maxMovies : Int) :
    ∃ r, TableBasics.AddMovieBatch marshalMap batchWriteItem svc movies maxMovies = .ret r
      ∧ (∀ extra : Nat,
          TableBasics.AddMovieBatchFuel marshalMap batchWriteItem svc movies maxMovies
            (movies.length + 1 + extra) = .ret r)
      ∧ (∀ c ∈ r.calls, 0 ≤ c.start ∧ c.start < c.stop ∧ c.stop ≤ (movies.length : Int)
          ∧ goSlice movies c.start c.stop = some c.chunk ∧ c.chunk ≠ [])
      ∧ List.Chain' (fun a b => a.start < b.start) r.calls := by
  obtain ⟨st, hloop, hinv, hc⟩ :=
    loop_returns marshalMap batchWriteItem svc movies maxMovies (movies.length + 1)
      (TableBasics.initState svc) (loopInv_init marshalMap batchWriteItem svc movies maxMovies)
      (by simp [TableBasics.initState])
  have hf := runFacts_of_inv marshalMap batchWriteItem svc movies maxMovies st hinv hc
  refine ⟨⟨st.written, st.err, st.log⟩, ?_, ?_, ?_, hf.chain.imp (fun _ _ h => h.2)⟩
  · simp [TableBasics.AddMovieBatch, TableBasics.AddMovieBatchFuel, hloop]
  · intro extra
    have := loop_fuel_mono marshalMap batchWriteItem movies maxMovies (movies.length + 1)
      extra _ _ hloop
    simp [TableBasics.AddMovieBatchFuel, this]
  · intro c hcm
    have hb := hf.bounds c hcm
    have hs := hf.slices c hcm
    refine ⟨hb.1, hb.2.1, hb.2.2, hs, ?_⟩
    intro hnil
    have hl := goSlice_length movies c.start c.stop c.chunk hs
    rw [hnil] at hl
    simp only [List.length_nil, Nat.cast_zero] at hl
    omega

/-- C9: in `TableBasics.AddMovieBatch` a record that fails to marshal is
skipped and nothing else changes: the run returns, the chunks are the windows
of 25 records of the input whatever marshals, the write requests of each call
are the put requests of the records of its chunk that marshal, in chunk order,
and the error returned is nil or the answer of a remote call, never the error
of a marshaling alone. -/
theorem addMovieBatch_skips_unmarshalable {α ι ε σ : Type} (marshalMap : α → Except ε ι)
    (batchWriteItem : σ → List (WriteRequest ι) → Option ε × σ) (svc : σ)
    (movies : List α) (maxMovies : Int) :
    ∃ r, TableBasics.AddMovieBatch marshalMap batchWriteItem svc movies maxMovies = .ret r
      ∧ (r.calls.map fun c => c.chunk)
          = (List.range (numCalls movies.length maxMovies)).map
              (fun (i : Nat) => (movies.drop (25 * i)).take 25)
      ∧ (∀ c ∈ r.calls, c.reqs = c.chunk.filterMap (putRequestOf marshalMap))
      ∧ (r.err = none ∨ ∃ c ∈ r.calls, c.result = r.err) := by
  obtain ⟨r, hrun, hf⟩ := addMovieBatch_facts marshalMap batchWriteItem svc movies maxMovies
  refine ⟨r, hrun, hf.chunks, hf.reqs, ?_⟩
  rcases List.eq_nil_or_concat r.calls with h | ⟨pre, c, h⟩
  · exact Or.inl (hf.err_nil h)
  · rw [List.concat_eq_append] at h
    exact Or.inr ⟨c, by rw [h]; simp, (hf.err_last pre c h).symm⟩

/-- C3 as stated fails: with 50 movies and a service whose calls all fail, the
second call is issued after the first one failed. -/
theorem addMovieBatch_continues_after_failure :
    (callsOf (TableBasics.AddMovieBatch okMarshal downService () (List.range 50) 50)).map
        (fun c => (c.start, c.reqs.length, c.result))
      = [(0, 25, some "unavailable"), (25, 25, some "unavailable")] := by
  decide

/-- C3, amended: a failing remote call does not abort the processing.
`TableBasics.AddMovieBatch` issues one `BatchWriteItem` call per chunk,
`ceil(min(L, maxMovies) / 25)` calls in all (none for a negative cap), and the
write requests of these calls are the same whatever the remote service
answers: for any two services the calls issued carry equal requests. -/
theorem addMovieBatch_calls_ignore_failures {α ι ε σ τ : Type} (marshalMap : α → Except ε ι)
    (batchWriteItem : σ → List (WriteRequest ι) → Option ε × σ) (svc : σ)
    (otherService : τ → List (WriteRequest ι) → Option ε × τ) (other : τ)
    (movies : List α) (maxMovies : Int) :
    ∃ r r', TableBasics.AddMovieBatch marshalMap batchWriteItem svc movies maxMovies = .ret r
      ∧ TableBasics.AddMovieBatch marshalMap otherService other movies maxMovies = .ret r'
      ∧ r.calls.length = numCalls movies.length maxMovies
      ∧ (r.calls.map fun c => c.reqs) = r'.calls.map fun c => c.reqs := by
  obtain ⟨r, hrun, hf⟩ := addMovieBatch_facts marshalMap batchWriteItem svc movies maxMovies
  obtain ⟨r', hrun', hf'⟩ := addMovieBatch_facts marshalMap otherService other movies maxMovies
  refine ⟨r, r', hrun, hrun', hf.count, ?_⟩
  have h1 : (r.calls.map fun c => c.reqs)
      = (r.calls.map fun c => c.chunk).map (List.filterMap (putRequestOf marshalMap)) := by
    rw [List.map_map]
    exact List.map_congr_left fun c hc => hf.reqs c hc
  have h2 : (r'.calls.map fun c => c.reqs)
      = (r'.calls.map fun c => c.chunk).map (List.filterMap (putRequestOf marshalMap)) := by
    rw [List.map_map]
    exact List.map_congr_left fun c hc => hf'.reqs c hc
  rw [h1, h2, hf.chunks, hf'.chunks]

/-- C4 as stated fails: with 26 movies and a service that fails the first call
only, the run returns a nil error and the count 1 of the second chunk, although
a call failed and no call succeeded before it. -/
theorem addMovieBatch_error_overwritten :
    returned (TableBasics.AddMovieBatch okMarshal failFirstService 0 (List.range 26) 26)
      = some (1, none)
    ∧ (callsOf (TableBasics.AddMovieBatch okMarshal failFirstService 0 (List.range 26) 26)).map
        (fun c => c.result) = [some "throttled", none] := by
  decide

/-- C4, amended: `TableBasics.AddMovieBatch` returns the count of the write
requests of all the chunk calls that succeeded, those after a failed call
included, the results of the calls being the answers of the remote service to
the requests in call order; the error returned is nil when every call
succeeded, and when the last call issued fails it is the error of that call. -/
theorem addMovieBatch_count_and_error {α ι ε σ : Type} (marshalMap : α → Except ε ι)
    (batchWriteItem : σ → List (WriteRequest ι) → Option ε × σ) (svc : σ)
    (movies : List α) (maxMovies : Int) :
    ∃ r, TableBasics.AddMovieBatch marshalMap batchWriteItem svc movies maxMovies = .ret r
      ∧ (r.calls.map fun c => c.result)
          = (serviceRun batchWriteItem svc (r.calls.map fun c => c.reqs)).1
      ∧ r.written
          = ((r.calls.filter fun c => c.result.isNone).map
              fun c => (c.reqs.length : Int)).sum
      ∧ ((∀ c ∈ r.calls, c.result = none) → r.err = none)
      ∧ (∀ pre c e, r.calls = pre ++ [c] → c.result = some e → r.err = some e) := by
  obtain ⟨r, hrun, hf⟩ := addMovieBatch_facts marshalMap batchWriteItem svc movies maxMovies
  refine ⟨r, hrun, hf.replies, hf.written_eq, ?_, ?_⟩
  · intro hall
    rcases List.eq_nil_or_concat r.calls with h | ⟨pre, c, h⟩
    · exact hf.err_nil h
    · rw [List.concat_eq_append] at h
      rw [hf.err_last pre c h]
      exact hall c (by rw [h]; simp)
  · intro pre c e h he
    rw [hf.err_last pre c h, he]

/-- C5 as stated fails: with 50 movies that all marshal, calls that all succeed
and `maxMovies = 30`, the count returned is 50, not 30. -/
theorem addMovieBatch_count_exceeds_cap :
    returned (TableBasics.AddMovieBatch okMarshal okService () (List.range 50) 30)
      = some (50, none) := by
  decide

/-- C5, amended: when every record marshals and every remote call that the
run issues succeeds, `TableBasics.AddMovieBatch(movies, maxMovies)` returns
`(min(len(movies), 25 * ceil(maxMovies / 25)), nil)` for every list and every
`maxMovies >= 0`; this is `min(len(movies), maxMovies)` when `maxMovies` is a
multiple of 25 or is at least `len(movies)`. -/
theorem addMovieBatch_count_on_success {α ι ε σ : Type} (marshalMap : α → Except ε ι)
    (batchWriteItem : σ → List (WriteRequest ι) → Option ε × σ) (svc : σ)
    (movies : List α) (maxMovies : Int)
    (hmarshal : ∀ m ∈ movies, ∃ item, marshalMap m = .ok item)
    (hcalls : ∀ c ∈ callsOf
        (TableBasics.AddMovieBatch marshalMap batchWriteItem svc movies maxMovies),
      c.result = none)
    (hmax : 0 ≤ maxMovies) :
    ∃ r, TableBasics.AddMovieBatch marshalMap batchWriteItem svc movies maxMovies = .ret r
      ∧ r.err = none
      ∧ r.written = min (movies.length : Int) (25 * ⌈(maxMovies : ℚ) / 25⌉)
      ∧ (maxMovies % 25 = 0 ∨ (movies.length : Int) ≤ maxMovies →
          r.written = min (movies.length : Int) maxMovies) := by
  obtain ⟨r, hrun, hf⟩ := addMovieBatch_facts marshalMap batchWriteItem svc movies maxMovies
  have hres : ∀ c ∈ r.calls, c.result = none := by
    intro c hc
    apply hcalls c
    rw [hrun]
    exact hc
  have herr : r.err = none := by
    rcases List.eq_nil_or_concat r.calls with h | ⟨pre, c, h⟩
    · exact hf.err_nil h
    · rw [List.concat_eq_append] at h
      rw [hf.err_last pre c h]
      exact hres c (by rw [h]; simp)
  have hfilter : (r.calls.filter fun c => c.result.isNone) = r.calls := by
    rw [List.filter_eq_self]
    intro c hc
    rw [hres c hc]; rfl
  have hlen : ∀ c ∈ r.calls, (c.reqs.length : Int) = (c.chunk.length : Int) := by
    intro c hc
    rw [hf.reqs c hc, filterMap_putRequestOf_length]
    intro m hm
    exact hmarshal m (mem_of_goSlice movies c.start c.stop c.chunk (hf.slices c hc) m hm)
  have hwritten : r.written = min (25 * (numCalls movies.length maxMovies : Int))
      (movies.length : Int) := by
    rw [hf.written_eq, hfilter, List.map_congr_left hlen]
    have := sum_lengths_flatten (r.calls.map fun c => c.chunk)
    rw [List.map_map] at this
    rw [show (fun c : CallRecord α ι ε => (c.chunk.length : Int))
      = (fun l : List α => (l.length : Int)) ∘ fun c => c.chunk from rfl, this, hf.chunks,
      flatten_windows, List.length_take]
    push_cast
    rfl
  refine ⟨r, hrun, herr, ?_, ?_⟩
  · rw [hwritten, ceil_div_batch]
    unfold numCalls
    omega
  · intro h
    rw [hwritten]
    unfold numCalls
    omega

/-- Witness of the amended C5: 30 movies with `maxMovies = 30` against a
service that would fail in its state 0 and is started in state 1, so that the
two calls issued, of 25 and 5 records, both succeed; the count is 30. -/
theorem addMovieBatch_count_on_success_witness :
    (∀ m ∈ List.range 30, ∃ item, okMarshal m = .ok item)
    ∧ (∀ c ∈ callsOf
          (TableBasics.AddMovieBatch okMarshal failFirstService 1 (List.range 30) 30),
        c.result = none)
    ∧ (0 : Int) ≤ 30
    ∧ ∃ r, TableBasics.AddMovieBatch okMarshal failFirstService 1 (List.range 30) 30 = .ret r
      ∧ r.err = none
      ∧ r.written = min ((List.range 30).length : Int) (25 * ⌈((30 : Int) : ℚ) / 25⌉)
      ∧ ((30 : Int) % 25 = 0 ∨ ((List.range 30).length : Int) ≤ 30 →
          r.written = min ((List.range 30).length : Int) 30) :=
  ⟨fun m _ => ⟨m, rfl⟩, by decide, by decide,
    addMovieBatch_count_on_success okMarshal failFirstService 1 (List.range 30) 30
      (fun m _ => ⟨m, rfl⟩) (by decide) (by decide)⟩

/-! ## The PartiQL batch operations -/

theorem fillStatements_spec {μ κ ρ π ε : Type} (statement : String)
    (params : Nat → μ → Option (List (Param κ ρ)))
    (marshalList : List (Param κ ρ) → Except ε π) (movies : List μ) :
    ∀ (index : Nat) (reqs : List (BatchStatementRequest π)),
      index + movies.length ≤ reqs.length →
      ((∀ j m, movies[j]? = some m →
          ∃ values p, params (index + j) m = some values ∧ marshalList values = .ok p) →
        ∃ out, PartiQLRunner.fillStatements statement params marshalList movies index reqs
          = .ret out ∧ out.length = reqs.length)
      ∧ (¬ (∀ j m, movies[j]? = some m →
          ∃ values p, params (index + j) m = some values ∧ marshalList values = .ok p) →
        PartiQLRunner.fillStatements statement params marshalList movies index reqs
          = .panicked) := by
  induction movies with
  | nil =>
    intro index reqs _
    exact ⟨fun _ => ⟨reqs, rfl, rfl⟩, fun h => absurd (fun j m hj => by simp at hj) h⟩
  | cons m rest ih =>
    intro index reqs hlen
    simp only [List.length_cons] at hlen
    have hi : index < reqs.length := by omega
    cases hp : params index m with
    | none =>
      refine ⟨fun hall => ?_, fun _ => by
        unfold PartiQLRunner.fillStatements; simp only [hp]⟩
      obtain ⟨values, p, h1, _⟩ := hall 0 m (by simp)
      rw [Nat.add_zero, hp] at h1
      simp at h1
    | some values =>
      cases hv : marshalList values with
      | error e =>
        refine ⟨fun hall => ?_, fun _ => by
          unfold PartiQLRunner.fillStatements; simp only [hp, hv]⟩
        obtain ⟨values', p, h1, h2⟩ := hall 0 m (by simp)
        rw [Nat.add_zero, hp] at h1
        simp only [Option.some.injEq] at h1
        rw [← h1, hv] at h2
        simp at h2
      | ok p =>
        obtain ⟨ih1, ih2⟩ := ih (index + 1) (reqs.set index ⟨some statement, some p⟩)
          (by rw [List.length_set]; omega)
        have hstep :
            PartiQLRunner.fillStatements statement params marshalList (m :: rest) index reqs
              = PartiQLRunner.fillStatements statement params marshalList rest (index + 1)
                  (reqs.set index ⟨some statement, some p⟩) := by
          rw [PartiQLRunner.fillStatements]
          simp only [hp, hv, if_pos hi]
        have hshift :
            (∀ j m', (m :: rest)[j]? = some m' →
              ∃ values p, params (index + j) m' = some values ∧ marshalList values = .ok p)
            ↔ (∀ j m', rest[j]? = some m' →
              ∃ values p, params (index + 1 + j) m' = some values
                ∧ marshalList values = .ok p) := by
          constructor
          · intro h j m' hj
            have := h (j + 1) m' (by simpa using hj)
            rwa [show index + (j + 1) = index + 1 + j by omega] at this
          · intro h j m' hj
            cases j with
            | zero =>
              simp only [List.getElem?_cons_zero, Option.some.injEq] at hj
              subst hj
              exact ⟨values, p, by rw [Nat.add_zero]; exact hp, hv⟩
            | succ k =>
              have := h k m' (by simpa using hj)
              rwa [show index + 1 + k = index + (k + 1) by omega] at this
        rw [hstep]
        refine ⟨fun hall => ?_, fun hn => ih2 fun h => hn (hshift.2 h)⟩
        obtain ⟨out, ho, hl⟩ := ih1 (hshift.1 hall)
        exact ⟨out, ho, by rw [hl, List.length_set]⟩

theorem buildStatements_spec {μ κ ρ π ε : Type} (statement : String)
    (params : Nat → μ → Option (List (Param κ ρ)))
    (marshalList : List (Param κ ρ) → Except ε π) (movies : List μ) :
    ((∀ j m, movies[j]? = some m →
        ∃ values p, params j m = some values ∧ marshalList values = .ok p) →
      ∃ out, PartiQLRunner.buildStatements statement params marshalList movies = .ret out
        ∧ out.length = movies.length)
    ∧ (¬ (∀ j m, movies[j]? = some m →
        ∃ values p, params j m = some values ∧ marshalList values = .ok p) →
      PartiQLRunner.buildStatements statement params marshalList movies = .panicked) := by
  have h := fillStatements_spec statement params marshalList movies 0
    (List.replicate movies.length ⟨none, none⟩) (by simp)
  simp only [Nat.zero_add, List.length_replicate] at h
  exact h

theorem executeBatch_single {π ι ε : Type}
    (batchExecuteStatement :
      List (BatchStatementRequest π) → Except ε (List (BatchStatementResponse ι)))
    (reqs : List (BatchStatementRequest π)) :
    ∃ r, PartiQLRunner.executeBatch batchExecuteStatement (.ret reqs) = .ret r
      ∧ r.calls = [reqs] := by
  cases h : batchExecuteStatement reqs with
  | error e => exact ⟨⟨some e, [reqs]⟩, by simp [PartiQLRunner.executeBatch, h], rfl⟩
  | ok out => exact ⟨⟨none, [reqs]⟩, by simp [PartiQLRunner.executeBatch, h], rfl⟩

theorem executeBatch_build {μ κ ρ π ι ε : Type} (statement : String)
    (params : Nat → μ → Option (List (Param κ ρ)))
    (marshalList : List (Param κ ρ) → Except ε π)
    (batchExecuteStatement :
      List (BatchStatementRequest π) → Except ε (List (BatchStatementResponse ι)))
    (movies : List μ) :
    ((∀ j m, movies[j]? = some m →
        ∃ values p, params j m = some values ∧ marshalList values = .ok p) →
      ∃ r reqs, PartiQLRunner.executeBatch batchExecuteStatement
          (PartiQLRunner.buildStatements statement params marshalList movies) = .ret r
        ∧ r.calls = [reqs] ∧ reqs.length = movies.length)
    ∧ (¬ (∀ j m, movies[j]? = some m →
        ∃ values p, params j m = some values ∧ marshalList values = .ok p) →
      PartiQLRunner.executeBatch batchExecuteStatement
        (PartiQLRunner.buildStatements statement params marshalList movies) = .panicked) := by
  obtain ⟨h1, h2⟩ := buildStatements_spec statement params marshalList movies
  refine ⟨fun hall => ?_, fun hn => by rw [h2 hn]; rfl⟩
  obtain ⟨reqs, hb, hl⟩ := h1 hall
  obtain ⟨r, hrun, hc⟩ := executeBatch_single batchExecuteStatement reqs
  exact ⟨r, reqs, by rw [hb, hrun], hc, hl⟩

theorem decodeResponses_snd {μ ι ε : Type} (unmarshalMap : ι → Except ε μ)
    (responses : List (BatchStatementResponse ι)) :
    ∀ (e : Option ε) (acc : List μ),
      (PartiQLRunner.decodeResponses unmarshalMap responses (e, acc)).2
        = acc ++ responses.filterMap (decodedMovie unmarshalMap) := by
  induction responses with
  | nil => intro e acc; simp [PartiQLRunner.decodeResponses]
  | cons a rest ih =>
    intro e acc
    cases ha : unmarshalMap a.Item with
    | error x =>
      simp [PartiQLRunner.decodeResponses, ha, ih, decodedMovie, List.filterMap_cons]
    | ok movie =>
      simp [PartiQLRunner.decodeResponses, ha, ih, decodedMovie, List.filterMap_cons]

theorem getMovieBatch_of_build {κ ρ π ι ε : Type} (tableName : String)
    (marshalList : List (Param κ ρ) → Except ε π)
    (batchExecuteStatement :
      List (BatchStatementRequest π) → Except ε (List (BatchStatementResponse ι)))
    (unmarshalMap : ι → Except ε (Movie κ)) (movies : List (Movie κ))
    (reqs : List (BatchStatementRequest π))
    (hb : PartiQLRunner.buildStatements (PartiQLRunner.selectStatement tableName)
      (fun _ (movie : Movie κ) => some [Param.str movie.Title, Param.int movie.Year])
      marshalList movies = .ret reqs) :
    ∃ r, PartiQLRunner.GetMovieBatch tableName marshalList batchExecuteStatement
        unmarshalMap movies = .ret r
      ∧ r.calls = [reqs]
      ∧ ∀ responses, batchExecuteStatement reqs = .ok responses →
          r.movies = responses.filterMap (decodedMovie unmarshalMap) := by
  cases h : batchExecuteStatement reqs with
  | error e =>
    exact ⟨⟨[], some e, [reqs]⟩, by simp [PartiQLRunner.GetMovieBatch, hb, h], rfl,
      fun responses hr => by simp at hr⟩
  | ok out =>
    refine ⟨⟨(PartiQLRunner.decodeResponses unmarshalMap out (none, [])).2,
      (PartiQLRunner.decodeResponses unmarshalMap out (none, [])).1, [reqs]⟩,
      by simp [PartiQLRunner.GetMovieBatch, hb, h], rfl, ?_⟩
    intro responses hr
    simp only [Except.ok.injEq] at hr
    subst hr
    simp [decodeResponses_snd]

theorem marshal_each_iff {μ κ ρ π ε : Type} (marshalList : List (Param κ ρ) → Except ε π)
    (movies : List μ) (f : μ → List (Param κ ρ)) :
    (∀ (j : Nat) (m : μ), movies[j]? = some m →
        ∃ values p, some (f m) = some values ∧ marshalList values = .ok p)
      ↔ ∀ m ∈ movies, ∃ p, marshalList (f m) = .ok p := by
  constructor
  · intro h m hm
    obtain ⟨j, hj⟩ := List.mem_iff_getElem?.1 hm
    obtain ⟨values, p, h1, h2⟩ := h j m hj
    simp only [Option.some.injEq] at h1
    exact ⟨p, by rw [h1]; exact h2⟩
  · intro h j m hj
    obtain ⟨p, hp⟩ := h m (List.getElem?_mem hj)
    exact ⟨f m, p, rfl, hp⟩

theorem marshal_rated_iff {μ κ ρ π ε : Type} (marshalList : List (Param κ ρ) → Except ε π)
    (movies : List μ) (ratings : List ρ) (g : μ → ρ → List (Param κ ρ)) :
    (∀ (j : Nat) (m : μ), movies[j]? = some m →
        ∃ values p, (ratings.get? j).map (g m) = some values ∧ marshalList values = .ok p)
      ↔ movies.length ≤ ratings.length
        ∧ ∀ (j : Nat) (m : μ) (r : ρ), movies[j]? = some m → ratings[j]? = some r →
            ∃ p, marshalList (g m r) = .ok p := by
  constructor
  · intro h
    refine ⟨?_, ?_⟩
    · by_contra hlt
      have hj : ratings.length < movies.length := by omega
      obtain ⟨values, p, h1, _⟩ := h ratings.length _ (List.getElem?_eq_getElem hj)
      rw [List.get?_eq_getElem?, List.getElem?_eq_none (le_refl _)] at h1
      simp at h1
    · intro j m r hm hr
      obtain ⟨values, p, h1, h2⟩ := h j m hm
      rw [List.get?_eq_getElem?, hr] at h1
      simp only [Option.map_some', Option.some.injEq] at h1
      exact ⟨p, by rw [h1]; exact h2⟩
  · intro ⟨hlen, h⟩ j m hm
    have hj : j < movies.length := (List.getElem?_eq_some.1 hm).1
    have hjr : j < ratings.length := by omega
    obtain ⟨p, hp⟩ := h j m ratings[j] hm (List.getElem?_eq_getElem hjr)
    exact ⟨g m ratings[j], p,
      by rw [List.get?_eq_getElem?, List.getElem?_eq_getElem hjr]; rfl, hp⟩

/-- C6 as stated fails: on 26 movies each of the four PartiQL batch operations
issues one `BatchExecuteStatement` call that carries 26 statements. -/
theorem partiql_batch_exceeds_limit :
    statementCounts (PartiQLRunner.AddMovieBatch "movies" okParams okExec (sampleMovies 26))
      = [26]
    ∧ getStatementCounts
        (PartiQLRunner.GetMovieBatch "movies" okParams okExec yearUnmarshal (sampleMovies 26))
      = [26]
    ∧ statementCounts
        (PartiQLRunner.UpdateMovieBatch "movies" okParams okExec (sampleMovies 26)
          (List.range 26))
      = [26]
    ∧ statementCounts (PartiQLRunner.DeleteMovieBatch "movies" okParams okExec (sampleMovies 26))
      = [26] := by
  decide

/-- C6, amended: for every input list of movies, each of the PartiQL batch
operations `AddMovieBatch`, `GetMovieBatch`, `UpdateMovieBatch` and
`DeleteMovieBatch` issues exactly one `BatchExecuteStatement` call, and that
call carries exactly `len(movies)` statements, hence at most 25 statements
exactly when the list has at most 25 movies; this when the parameter list the
operation builds for each movie marshals and, for `UpdateMovieBatch`, there
are at least as many ratings as movies; otherwise the operation panics
without issuing a call. -/
theorem partiql_batch_one_call_of_all {κ ρ π ι ε : Type} (tableName : String)
    (marshalList : List (Param κ ρ) → Except ε π)
    (batchExecuteStatement :
      List (BatchStatementRequest π) → Except ε (List (BatchStatementResponse ι)))
    (unmarshalMap : ι → Except ε (Movie κ)) (movies : List (Movie κ)) (ratings : List ρ) :
    ((∀ m ∈ movies, ∃ p,
          marshalList [Param.str m.Title, Param.int m.Year, Param.info m.Info] = .ok p) →
        ∃ r reqs, PartiQLRunner.AddMovieBatch tableName marshalList batchExecuteStatement
          movies = .ret r ∧ r.calls = [reqs] ∧ reqs.length = movies.length)
    ∧ (¬ (∀ m ∈ movies, ∃ p,
          marshalList [Param.str m.Title, Param.int m.Year, Param.info m.Info] = .ok p) →
        PartiQLRunner.AddMovieBatch tableName marshalList batchExecuteStatement movies
          = .panicked)
    ∧ ((∀ m ∈ movies, ∃ p, marshalList [Param.str m.Title, Param.int m.Year] = .ok p) →
        ∃ r reqs, PartiQLRunner.GetMovieBatch tableName marshalList batchExecuteStatement
          unmarshalMap movies = .ret r ∧ r.calls = [reqs] ∧ reqs.length = movies.length)
    ∧ (¬ (∀ m ∈ movies, ∃ p, marshalList [Param.str m.Title, Param.int m.Year] = .ok p) →
        PartiQLRunner.GetMovieBatch tableName marshalList batchExecuteStatement
          unmarshalMap movies = .panicked)
    ∧ ((movies.length ≤ ratings.length
          ∧ ∀ (j : Nat) (m : Movie κ) (x : ρ), movies[j]? = some m → ratings[j]? = some x →
              ∃ p, marshalList [Param.rating x, Param.str m.Title, Param.int m.Year] = .ok p) →
        ∃ r reqs, PartiQLRunner.UpdateMovieBatch tableName marshalList batchExecuteStatement
          movies ratings = .ret r ∧ r.calls = [reqs] ∧ reqs.length = movies.length)
    ∧ (¬ (movies.length ≤ ratings.length
          ∧ ∀ (j : Nat) (m : Movie κ) (x : ρ), movies[j]? = some m → ratings[j]? = some x →
              ∃ p, marshalList [Param.rating x, Param.str m.Title, Param.int m.Year] = .ok p) →
        PartiQLRunner.UpdateMovieBatch tableName marshalList batchExecuteStatement
          movies ratings = .panicked)
    ∧ ((∀ m ∈ movies, ∃ p, marshalList [Param.str m.Title, Param.int m.Year] = .ok p) →
        ∃ r reqs, PartiQLRunner.DeleteMovieBatch tableName marshalList batchExecuteStatement
          movies = .ret r ∧ r.calls = [reqs] ∧ reqs.length = movies.length)
    ∧ (¬ (∀ m ∈ movies, ∃ p, marshalList [Param.str m.Title, Param.int m.Year] = .ok p) →
        PartiQLRunner.DeleteMovieBatch tableName marshalList batchExecuteStatement movies
          = .panicked) := by
  have hadd := executeBatch_build (PartiQLRunner.insertStatement tableName)
    (fun _ (movie : Movie κ) =>
      some [Param.str movie.Title, Param.int movie.Year, Param.info movie.Info])
    marshalList batchExecuteStatement movies
  have hget := buildStatements_spec (PartiQLRunner.selectStatement tableName)
    (fun _ (movie : Movie κ) => some [Param.str movie.Title, Param.int movie.Year])
    marshalList movies
  have hupd := executeBatch_build (PartiQLRunner.updateStatement tableName)
    (fun index (movie : Movie κ) =>
      (ratings.get? index).map fun r =>
        [Param.rating r, Param.str movie.Title, Param.int movie.Year])
    marshalList batchExecuteStatement movies
  have hdel := executeBatch_build (PartiQLRunner.deleteStatement tableName)
    (fun _ (movie : Movie κ) => some [Param.str movie.Title, Param.int movie.Year])
    marshalList batchExecuteStatement movies
  have iadd := marshal_each_iff marshalList movies
    (fun movie : Movie κ =>
      [Param.str movie.Title, Param.int movie.Year, Param.info movie.Info])
  have ikey := marshal_each_iff marshalList movies
    (fun movie : Movie κ => [Param.str movie.Title, Param.int movie.Year])
  have iupd := marshal_rated_iff marshalList movies ratings
    (fun (movie : Movie κ) (r : ρ) =>
      [Param.rating r, Param.str movie.Title, Param.int movie.Year])
  refine ⟨fun h => hadd.1 (iadd.2 h), fun h => hadd.2 fun h' => h (iadd.1 h'), ?_, ?_,
    fun h => hupd.1 (iupd.2 h), fun h => hupd.2 fun h' => h (iupd.1 h'),
    fun h => hdel.1 (ikey.2 h), fun h => hdel.2 fun h' => h (ikey.1 h')⟩
  · intro h
    obtain ⟨reqs, hb, hl⟩ := hget.1 (ikey.2 h)
    obtain ⟨r, hrun, hc, _⟩ := getMovieBatch_of_build tableName marshalList
      batchExecuteStatement unmarshalMap movies reqs hb
    exact ⟨r, reqs, hrun, hc, hl⟩
  · intro h
    have hb := hget.2 fun h' => h (ikey.1 h')
    simp [PartiQLRunner.GetMovieBatch, hb]

/-- Witness of the amended C6: three movies and three ratings with a marshaling
that rejects only the lists holding an `info` attribute bag: `GetMovieBatch`,
`UpdateMovieBatch` and `DeleteMovieBatch` issue one call of three statements,
and `AddMovieBatch` panics. -/
theorem partiql_batch_one_call_of_all_witness :
    (∃ r reqs, PartiQLRunner.GetMovieBatch "movies" pickyParams okExec yearUnmarshal
        (sampleMovies 3) = .ret r ∧ r.calls = [reqs] ∧ reqs.length = (sampleMovies 3).length)
    ∧ (∃ r reqs, PartiQLRunner.UpdateMovieBatch "movies" pickyParams okExec (sampleMovies 3)
        [7, 8, 9] = .ret r ∧ r.calls = [reqs] ∧ reqs.length = (sampleMovies 3).length)
    ∧ (∃ r reqs, PartiQLRunner.DeleteMovieBatch "movies" pickyParams okExec (sampleMovies 3)
        = .ret r ∧ r.calls = [reqs] ∧ reqs.length = (sampleMovies 3).length)
    ∧ PartiQLRunner.AddMovieBatch "movies" pickyParams okExec (sampleMovies 3) = .panicked :=
  ⟨(partiql_batch_one_call_of_all "movies" pickyParams okExec yearUnmarshal (sampleMovies 3)
      [7, 8, 9]).2.2.1 fun _ _ => ⟨_, rfl⟩,
    (partiql_batch_one_call_of_all "movies" pickyParams okExec yearUnmarshal (sampleMovies 3)
      [7, 8, 9]).2.2.2.2.1 ⟨by decide, fun _ _ _ _ _ => ⟨_, rfl⟩⟩,
    (partiql_batch_one_call_of_all "movies" pickyParams okExec yearUnmarshal (sampleMovies 3)
      [7, 8, 9]).2.2.2.2.2.2.1 fun _ _ => ⟨_, rfl⟩,
    (partiql_batch_one_call_of_all "movies" pickyParams okExec yearUnmarshal (sampleMovies 3)
      [7, 8, 9]).2.1 fun h => by
        obtain ⟨p, hp⟩ := h ⟨"movie", 0, ()⟩ (by decide)
        simp [pickyParams, isInfo] at hp⟩

/-- C7 fails on the code: the call of `GetMovieBatch` succeeds and answers three
items; when the last item does not decode the operation returns the decoding
error, and when the middle item does not decode it returns a nil error. -/
theorem getMovieBatch_last_decode_error :
    yearsAndError (PartiQLRunner.GetMovieBatch "movies" okParams (answerExec [1, 2, 0])
        yearUnmarshal (sampleMovies 3)) = some ([1, 2], some "malformed")
    ∧ yearsAndError (PartiQLRunner.GetMovieBatch "movies" okParams (answerExec [1, 0, 2])
        yearUnmarshal (sampleMovies 3)) = some ([1, 2], none) := by
  decide

/-- C8: whenever the `BatchExecuteStatement` call of `GetMovieBatch` succeeds,
the operation returns and the movies returned are exactly the response items
that decode, in the order the service answered them: an item that does not
decode is dropped and the items after it are still decoded. The call is issued
whenever the list `[title, year]` of each movie marshals. -/
theorem getMovieBatch_returns_decoded {κ ρ π ι ε : Type} (tableName : String)
    (marshalList : List (Param κ ρ) → Except ε π)
    (batchExecuteStatement :
      List (BatchStatementRequest π) → Except ε (List (BatchStatementResponse ι)))
    (unmarshalMap : ι → Except ε (Movie κ)) (movies : List (Movie κ)) :
    (∀ reqs responses,
        reqs ∈ getCallsOf (PartiQLRunner.GetMovieBatch tableName marshalList
          batchExecuteStatement unmarshalMap movies) →
        batchExecuteStatement reqs = .ok responses →
        ∃ r, PartiQLRunner.GetMovieBatch tableName marshalList batchExecuteStatement
            unmarshalMap movies = .ret r
          ∧ r.calls = [reqs]
          ∧ r.movies = responses.filterMap (decodedMovie unmarshalMap))
    ∧ ((∀ m ∈ movies, ∃ p, marshalList [Param.str m.Title, Param.int m.Year] = .ok p) →
        ∃ r reqs, PartiQLRunner.GetMovieBatch tableName marshalList batchExecuteStatement
            unmarshalMap movies = .ret r
          ∧ r.calls = [reqs]) := by
  have hget := buildStatements_spec (PartiQLRunner.selectStatement tableName)
    (fun _ (movie : Movie κ) => some [Param.str movie.Title, Param.int movie.Year])
    marshalList movies
  have ikey := marshal_each_iff marshalList movies
    (fun movie : Movie κ => [Param.str movie.Title, Param.int movie.Year])
  constructor
  · intro reqs responses hmem hok
    by_cases hall : ∀ m ∈ movies, ∃ p,
        marshalList [Param.str m.Title, Param.int m.Year] = .ok p
    · obtain ⟨reqs0, hb, _⟩ := hget.1 (ikey.2 hall)
      obtain ⟨r, hrun, hc, hd⟩ := getMovieBatch_of_build tableName marshalList
        batchExecuteStatement unmarshalMap movies reqs0 hb
      rw [hrun] at hmem
      simp only [getCallsOf, hc, List.mem_singleton] at hmem
      subst hmem
      exact ⟨r, hrun, hc, hd responses hok⟩
    · have hb := hget.2 fun h' => hall (ikey.1 h')
      have hrun : PartiQLRunner.GetMovieBatch tableName marshalList batchExecuteStatement
          unmarshalMap movies = .panicked := by
        simp [PartiQLRunner.GetMovieBatch, hb]
      rw [hrun] at hmem
      simp [getCallsOf] at hmem
  · intro hall
    obtain ⟨reqs, hb, _⟩ := hget.1 (ikey.2 hall)
    obtain ⟨r, hrun, hc, _⟩ := getMovieBatch_of_build tableName marshalList
      batchExecuteStatement unmarshalMap movies reqs hb
    exact ⟨r, reqs, hrun, hc⟩

/-- Witness of C8: three movies asked, with a marshaling that rejects only the
lists holding an `info` attribute bag; the call succeeds and answers the items
1, 0, 2, of which the middle one does not decode. -/
theorem getMovieBatch_returns_decoded_witness :
    ∃ reqs responses,
      reqs ∈ getCallsOf (PartiQLRunner.GetMovieBatch "movies" pickyParams
        (answerExec [1, 0, 2]) yearUnmarshal (sampleMovies 3))
      ∧ answerExec [1, 0, 2] reqs = .ok responses
      ∧ ∃ r, PartiQLRunner.GetMovieBatch "movies" pickyParams (answerExec [1, 0, 2])
            yearUnmarshal (sampleMovies 3) = .ret r
          ∧ r.calls = [reqs]
          ∧ r.movies = responses.filterMap (decodedMovie yearUnmarshal)
          ∧ r.movies.map (fun m => m.Year) = [1, 2] := by
  obtain ⟨r0, reqs, hrun, hcalls⟩ :=
    (getMovieBatch_returns_decoded "movies" pickyParams (answerExec [1, 0, 2]) yearUnmarshal
      (sampleMovies 3)).2 fun _ _ => ⟨_, rfl⟩
  have hmem : reqs ∈ getCallsOf (PartiQLRunner.GetMovieBatch "movies" pickyParams
      (answerExec [1, 0, 2]) yearUnmarshal (sampleMovies 3)) := by
    rw [hrun]
    simp [getCallsOf, hcalls]
  obtain ⟨r, hr, hc, hm⟩ :=
    (getMovieBatch_returns_decoded "movies" pickyParams (answerExec [1, 0, 2]) yearUnmarshal
      (sampleMovies 3)).1 reqs _ hmem rfl
  refine ⟨reqs, _, hmem, rfl, r, hr, hc, hm, ?_⟩
  rw [hm]
  decide

end GoDynamo
